import Mathlib

/-!
Verification of the KZG evaluation-domain and proof-verification core
(`internal/kzg/domain.go` and the single/batch verification file of the
`kzg` package) against its natural-language specification.

The scalar field of the curve is supplied by an external library
(gnark-crypto `fr`), so the development is parametric in a commutative
ring `F`; the library's `Inverse` operation (field inverse with
`Inverse 0 = 0`) is passed around explicitly as a function `inv : F → F`,
and theorems that need it constrain it by the library contract
`x ≠ 0 → x * inv x = 1`.  Elliptic-curve groups and the pairing are
likewise abstracted: `G1` is a module over `F`, and the pairing check of
the library is a function bundled with its contract in `PairingModel`.
-/

/-- Error values returned by the kzg package.  `ErrDomainSizeMismatch` embeds
the inline `errors.New("domain size does not equal the number of evaluations
in the polynomial")` of `domain.go`; `ErrVerifyOpeningProof` and
`ErrInvalidNumDigests` are the named errors used by `Verify` and
`BatchVerifyMultiPoints`; `ErrRandomSource` stands for an error reported by
`fr.Element.SetRandom`, and `ErrPairing` for an error reported by the
pairing routines of the curve library.  Distinct constructors model the
distinct Go error values. -/
inductive KzgError
  | ErrDomainSizeMismatch
  | ErrVerifyOpeningProof
  | ErrInvalidNumDigests
  | ErrRandomSource
  | ErrPairing
deriving DecidableEq, Repr

/-- Fuel-indexed square-and-multiply exponentiation; this is the algorithm of
`fr.Element.Exp` (gnark-crypto computes `x^n` by binary exponentiation).
The fuel only bounds the number of halvings of the exponent. -/
def fpowAux {M : Type} [Monoid M] : Nat → M → Nat → M
  | 0, _, _ => 1
  | fuel + 1, x, n =>
    if n = 0 then 1
    else
      let r := fpowAux fuel (x * x) (n / 2)
      if n % 2 = 1 then x * r else r

/-- `fpow x n = x ^ n`, computed by square-and-multiply (embeds
`fr.Element.Exp`). -/
def fpow {M : Type} [Monoid M] (x : M) (n : Nat) : M := fpowAux (n + 1) x n

/-- `powerList g c n = [c, c*g, c*g*g, ...]` of length `n`: the loop of
`NewDomain` that fills `domain.Roots` starting from `current = 1` and
repeatedly multiplying by the generator. -/
def powerList {F : Type} [Monoid F] (g : F) : F → Nat → List F
  | _, 0 => []
  | cur, n + 1 => cur :: powerList g (cur * g) n

/-- Fuel-indexed search for the least `j ≥ k` with `m ≤ 2 ^ j`. -/
def nextPow2ExpAux (m : Nat) : Nat → Nat → Nat
  | k, 0 => k
  | k, fuel + 1 => if m ≤ 2 ^ k then k else nextPow2ExpAux m (k + 1) fuel

/-- The base-2 logarithm of `ecc.NextPowerOfTwo m` for a `uint64` argument:
the exponent `logx = bits.TrailingZeros64(x)` computed by `NewDomain`, where
`x` is the least power of two that is `≥ m` (`1` for `m = 0`). -/
def nextPow2Exp (m : Nat) : Nat := nextPow2ExpAux m 0 64

/-- The `Domain` struct of `domain.go`. -/
structure Domain (F : Type) where
  Cardinality : Nat
  CardinalityInv : F
  Generator : F
  GeneratorInv : F
  Roots : List F
  PreComputedInverses : List F

/-- The domain built by `NewDomain` for a given exponent `logx`:
cardinality `x = 2 ^ logx`, generator `rootOfUnity ^ (2 ^ (32 - logx))`
(`maxOrderRoot = 32`), the roots `generator ^ i` filled iteratively, and
their precomputed inverses.  `w` is the fixed `rootOfUnity` constant of
`domain.go` and `inv` is `fr.Element.Inverse`. -/
def mkDomain {F : Type} [CommRing F] (inv : F → F) (w : F) (logx : Nat) : Domain F :=
  { Cardinality := 2 ^ logx
    CardinalityInv := inv ((2 ^ logx : Nat) : F)
    Generator := fpow w (2 ^ (32 - logx))
    GeneratorInv := inv (fpow w (2 ^ (32 - logx)))
    Roots := powerList (fpow w (2 ^ (32 - logx))) 1 (2 ^ logx)
    PreComputedInverses := (powerList (fpow w (2 ^ (32 - logx))) 1 (2 ^ logx)).map inv }

/-- `NewDomain m` of `domain.go`.  The Go code panics when the required root
of unity does not exist (`logx > maxOrderRoot = 32`); the panic is modelled
as `none`. -/
def NewDomain {F : Type} [CommRing F] (inv : F → F) (w : F) (m : Nat) : Option (Domain F) :=
  if 32 < nextPow2Exp m then none
  else some (mkDomain inv w (nextPow2Exp m))

/-- The scan loop of `findRootIndex`: compares `point` against
`Roots[i], Roots[i+1], ...` for `remaining` more iterations, returning the
first matching index or `-1`. -/
def findRootIndexAux {F : Type} [CommRing F] [DecidableEq F] (d : Domain F) (point : F) :
    Nat → Nat → Int
  | _, 0 => -1
  | i, r + 1 =>
    if point = d.Roots.getD i 0 then Int.ofNat i
    else findRootIndexAux d point (i + 1) r

/-- `findRootIndex` of `domain.go`: the index of `point` in the domain, or
`-1` if `point` is not a root (linear scan over `0 ≤ i < Cardinality`,
first match wins). -/
def findRootIndex {F : Type} [CommRing F] [DecidableEq F] (d : Domain F) (point : F) : Int :=
  findRootIndexAux d point 0 d.Cardinality

/-- `fr.BatchInvert` of the field library: elementwise inversion (the
library's Montgomery-trick implementation returns exactly the elementwise
`Inverse` of its input, with zero entries left at zero, which is the
contract used here). -/
def batchInvert {F : Type} (inv : F → F) (xs : List F) : List F := xs.map inv

/-- `evaluateLagrangePolynomial` of `domain.go`.  Returns the triple
(output point, index in domain, error): `ErrDomainSizeMismatch` when the
evaluation count differs from the cardinality; the stored evaluation at the
matching index when the point is a domain root; otherwise the barycentric
formula `((point^card - 1) / card) * Σ_i poly[i] * roots[i] / (point - roots[i])`
with the denominators batch-inverted. -/
def evaluateLagrangePolynomial {F : Type} [CommRing F] [DecidableEq F]
    (inv : F → F) (domain : Domain F) (poly : List F) (evalPoint : F) :
    Option F × Int × Option KzgError :=
  if domain.Cardinality ≠ poly.length then
    (none, -1, some KzgError.ErrDomainSizeMismatch)
  else
    let indexInDomain := findRootIndex domain evalPoint
    if indexInDomain ≠ -1 then
      (some (poly.getD indexInDomain.toNat 0), indexInDomain, none)
    else
      let denom := (List.range domain.Cardinality).map
        (fun i => evalPoint - domain.Roots.getD i 0)
      let invDenom := batchInvert inv denom
      let result := (List.range domain.Cardinality).foldl
        (fun acc i => acc + poly.getD i 0 * domain.Roots.getD i 0 * invDenom.getD i 0) 0
      let tmp := (fpow evalPoint domain.Cardinality - 1) * domain.CardinalityInv
      (some (tmp * result), -1, none)

/-- The public wrapper `EvaluateLagrangePolynomial` of `domain.go`: drops the
in-domain index from the triple. -/
def EvaluateLagrangePolynomial {F : Type} [CommRing F] [DecidableEq F]
    (inv : F → F) (domain : Domain F) (poly : List F) (evalPoint : F) :
    Option F × Option KzgError :=
  ((evaluateLagrangePolynomial inv domain poly evalPoint).1,
   (evaluateLagrangePolynomial inv domain poly evalPoint).2.2)

/-- The `OpeningProof` struct: commitment to the quotient polynomial, the
input point `z`, and the claimed value `f(z)`. -/
structure OpeningProof (F G1 : Type) where
  QuotientCommitment : G1
  InputPoint : F
  ClaimedValue : F

/-- The `OpeningKey`: the generators of both groups and `alpha * G2`.  The
precomputed `PairingLines` of the Go struct encode exactly the pair
`(GenG2, AlphaG2)`, so they are represented by those two points. -/
structure OpeningKey (G1 G2 : Type) where
  GenG1 : G1
  GenG2 : G2
  AlphaG2 : G2

/-- Abstraction of the bls12-381 pairing as used by `Verify` and
`BatchVerifyMultiPoints`: a pairing `e` into a commutative group `GT`,
additive in its `G1` argument, together with the library's
`PairingCheck`/`PairingCheckFixedQ` entry point, which may report an error
and otherwise decides whether the product of pairings is the identity. -/
structure PairingModel (F G1 G2 GT : Type) [CommRing F] [AddCommGroup G1]
    [Module F G1] [CommGroup GT] where
  e : G1 → G2 → GT
  pairingCheck : List (G1 × G2) → Except Unit Bool
  e_add_left : ∀ a b c, e (a + b) c = e a c * e b c
  pairingCheck_ok : ∀ ps b, pairingCheck ps = Except.ok b →
    (b = true ↔ (ps.map fun pq => e pq.1 pq.2).prod = 1)

/-- `Verify` of the kzg package: computes
`totalG1 = [f(z)]G1 + [-z]Q - C` by a joint scalar multiplication and a
subtraction, then runs the fixed-Q pairing check against
`(GenG2, AlphaG2)`; a pairing-library error is propagated, a failed check
becomes `ErrVerifyOpeningProof`, success is `none` (Go `nil`). -/
def Verify {F G1 G2 GT : Type} [CommRing F] [AddCommGroup G1] [Module F G1]
    [CommGroup GT] (P : PairingModel F G1 G2 GT) (commitment : G1)
    (proof : OpeningProof F G1) (openKey : OpeningKey G1 G2) : Option KzgError :=
  let totalG1 := proof.ClaimedValue • openKey.GenG1 +
    (-proof.InputPoint) • proof.QuotientCommitment - commitment
  match P.pairingCheck [(totalG1, openKey.GenG2),
      (proof.QuotientCommitment, openKey.AlphaG2)] with
  | Except.error _ => some KzgError.ErrPairing
  | Except.ok true => none
  | Except.ok false => some KzgError.ErrVerifyOpeningProof

/-- Modelled from the spec: `utils.ComputePowers r n` (the `internal/utils`
package is not among the provided sources) "forms weights
`r^0, r^1, …, r^(n-1)`". -/
def computePowers {F : Type} [CommRing F] (r : F) (n : Nat) : List F :=
  powerList r 1 n

/-- The gnark-crypto `MultiExp` contract for equal-length inputs: the
multi-scalar multiplication `Σ scalars[i] • points[i]` (the library reports
an error only for mismatched lengths, which the callers here rule out). -/
def msm {F G1 : Type} [CommRing F] [AddCommGroup G1] [Module F G1]
    (points : List G1) (scalars : List F) : G1 :=
  (List.zipWith (fun s p => s • p) scalars points).sum

/-- `fold` of the kzg package: the multi-scalar multiplication of the
commitments by the factors, paired with the dot product of the evaluations
and the factors. -/
def fold {F G1 : Type} [CommRing F] [AddCommGroup G1] [Module F G1]
    (commitments : List G1) (evaluations factors : List F) : G1 × F :=
  (msm commitments factors, (List.zipWith (fun e_ f => e_ * f) evaluations factors).sum)

/-- `BatchVerifyMultiPoints` of the kzg package.  `rand` is the outcome of
`fr.Element.SetRandom()`, the draw from the process's cryptographically
secure randomness source: `Except.ok r` is a successful draw of the scalar
`r`, `Except.error` a failure of the source (whose error the Go code
returns).  Length mismatch yields `ErrInvalidNumDigests`; an empty batch
verifies trivially; a 1-element batch delegates to `Verify` without
consuming randomness; otherwise the proofs are folded with the weights
`r^0..r^(n-1)` and a single pairing check is performed. -/
def BatchVerifyMultiPoints {F G1 G2 GT : Type} [CommRing F] [AddCommGroup G1]
    [Module F G1] [CommGroup GT] (P : PairingModel F G1 G2 GT)
    (rand : Except Unit F) (commitments : List G1)
    (proofs : List (OpeningProof F G1)) (openKey : OpeningKey G1 G2) :
    Option KzgError :=
  if commitments.length ≠ proofs.length then some KzgError.ErrInvalidNumDigests
  else if commitments.length = 0 then none
  else if commitments.length = 1 then
    Verify P (commitments.getD 0 0) (proofs.getD 0 ⟨0, 0, 0⟩) openKey
  else
    match rand with
    | Except.error _ => some KzgError.ErrRandomSource
    | Except.ok randomNumber =>
      let randomNumbers := computePowers randomNumber commitments.length
      let quotients := proofs.map (fun p => p.QuotientCommitment)
      let foldedQuotients := msm quotients randomNumbers
      let evaluations := proofs.map (fun p => p.ClaimedValue)
      let folded := fold commitments evaluations randomNumbers
      let foldedEvaluationsCommit := folded.2 • openKey.GenG1
      let foldedCommitments := folded.1 - foldedEvaluationsCommit
      let scaledRandomNumbers := List.zipWith
        (fun r p => r * p.InputPoint) randomNumbers proofs
      let foldedPointsQuotients := msm quotients scaledRandomNumbers
      match P.pairingCheck [(foldedCommitments + foldedPointsQuotients, openKey.GenG2),
          (-foldedQuotients, openKey.AlphaG2)] with
      | Except.error _ => some KzgError.ErrPairing
      | Except.ok true => none
      | Except.ok false => some KzgError.ErrVerifyOpeningProof

/-- Follows the spec's words for the batch-verification folding step, with
the folding scalar `r` made an explicit argument: the deterministic
function of the batch contents and the drawn scalar that
`BatchVerifyMultiPoints` computes once the scalar has been sampled. -/
def batchVerifyWithScalar {F G1 G2 GT : Type} [CommRing F] [AddCommGroup G1]
    [Module F G1] [CommGroup GT] (P : PairingModel F G1 G2 GT) (r : F)
    (commitments : List G1) (proofs : List (OpeningProof F G1))
    (openKey : OpeningKey G1 G2) : Option KzgError :=
  let randomNumbers := computePowers r commitments.length
  let quotients := proofs.map (fun p => p.QuotientCommitment)
  let foldedQuotients := msm quotients randomNumbers
  let evaluations := proofs.map (fun p => p.ClaimedValue)
  let folded := fold commitments evaluations randomNumbers
  let foldedEvaluationsCommit := folded.2 • openKey.GenG1
  let foldedCommitments := folded.1 - foldedEvaluationsCommit
  let scaledRandomNumbers := List.zipWith
    (fun r p => r * p.InputPoint) randomNumbers proofs
  let foldedPointsQuotients := msm quotients scaledRandomNumbers
  match P.pairingCheck [(foldedCommitments + foldedPointsQuotients, openKey.GenG2),
      (-foldedQuotients, openKey.AlphaG2)] with
  | Except.error _ => some KzgError.ErrPairing
  | Except.ok true => none
  | Except.ok false => some KzgError.ErrVerifyOpeningProof

/-! ### Concrete instances used to exercise the definitions

Small prime fields stand in for the bls12-381 scalar field; the library's
`Inverse` is realised by Fermat exponentiation so that every hypothesis can
be checked by evaluation. -/

instance : Fact (Nat.Prime 13) := ⟨by norm_num⟩

/-- Fermat-exponentiation inverse on `ZMod 13` (realises the `Inverse`
contract of the field library on a small field). -/
def inv13 (x : ZMod 13) : ZMod 13 := fpow x 11

/-- The prime `18 * 2^32 + 1`, whose multiplicative group has an element of
order `2^32`, mirroring the 2-adicity-32 structure of the bls12-381 scalar
field that `NewDomain` relies on. -/
def bigP : Nat := 77309411329

/-- Fermat-exponentiation inverse on `ZMod bigP`. -/
def invP (x : ZMod bigP) : ZMod bigP := fpow x (bigP - 2)

/-- An element of multiplicative order `2^32` in `ZMod bigP`, playing the
role of the fixed `rootOfUnity` constant of `domain.go`. -/
def wP : ZMod bigP := 45467087722

/-- The domain `NewDomain(3)` over `ZMod bigP` (cardinality 4). -/
def d8 : Domain (ZMod bigP) := (NewDomain invP wP 3).getD ⟨0, 0, 1, 1, [], []⟩

/-- The evaluations of `f(x) = x^2 + x` over the roots of `d8`. -/
def poly8 : List (ZMod bigP) := d8.Roots.map (fun r => r ^ 2 + r)

/-- The domain `NewDomain(1)` over `ZMod 13` with `rootOfUnity` taken as `1`
(cardinality 1). -/
def d13 : Domain (ZMod 13) := (NewDomain inv13 1 1).getD ⟨0, 0, 1, 1, [], []⟩

/-- A hand-written well-formed domain over `ZMod 13`: cardinality 2, roots
`[1, -1]`, `CardinalityInv = 2⁻¹ = 7`. -/
def dTwo : Domain (ZMod 13) := ⟨2, 7, 12, 12, [1, 12], [1, 12]⟩

/-- A toy pairing `e(a, b) = ofAdd (a * b)` on `G1 = G2 = ZMod 13`,
`GT = Multiplicative (ZMod 13)`. -/
def toyE (a b : ZMod 13) : Multiplicative (ZMod 13) := Multiplicative.ofAdd (a * b)

/-- The toy pairing-check entry point: decides whether the product of toy
pairings is the identity, never reporting an error. -/
def toyPairingCheck (ps : List (ZMod 13 × ZMod 13)) : Except Unit Bool :=
  Except.ok (decide ((ps.map fun pq => toyE pq.1 pq.2).prod = 1))

/-- The toy `PairingModel` packaging `toyE` and `toyPairingCheck`. -/
def toyPairing : PairingModel (ZMod 13) (ZMod 13) (ZMod 13) (Multiplicative (ZMod 13)) where
  e := toyE
  pairingCheck := toyPairingCheck
  e_add_left := by
    intro a b c
    show Multiplicative.ofAdd ((a + b) * c) = _
    rw [add_mul, ofAdd_add]
    rfl
  pairingCheck_ok := by
    intro ps b h
    have hb : b = decide ((ps.map fun pq => toyE pq.1 pq.2).prod = 1) :=
      (Except.ok.injEq _ _).mp h.symm
    subst hb
    simp

/-- A toy opening key: `GenG1 = 1`, `GenG2 = 1`, `AlphaG2 = 3` (secret 3). -/
def toyKey : OpeningKey (ZMod 13) (ZMod 13) := ⟨1, 1, 3⟩

/-- A batch of two commitments: the first pair is a valid opening, the
second is not. -/
def toyCommitments : List (ZMod 13) := [0, 1]

/-- Two all-zero proofs: valid for the commitment `0`, invalid for `1`. -/
def toyProofs : List (OpeningProof (ZMod 13) (ZMod 13)) := [⟨0, 0, 0⟩, ⟨0, 0, 0⟩]

/-- The all-zero toy opening proof. -/
def zeroProof : OpeningProof (ZMod 13) (ZMod 13) := ⟨0, 0, 0⟩

/-- The domain `NewDomain(4)` over `ZMod 13` with `rootOfUnity` taken as `1`
(cardinality 4, all roots equal to 1). -/
def d13four : Domain (ZMod 13) := (NewDomain inv13 1 4).getD ⟨0, 0, 1, 1, [], []⟩

/-! ### Helper lemmas about the embedded primitives -/

theorem fpowAux_eq_pow {M : Type} [Monoid M] :
    ∀ (fuel : Nat) (x : M) (n : Nat), n < 2 ^ fuel → fpowAux fuel x n = x ^ n := by
  intro fuel
  induction fuel with
  | zero =>
    intro x n h
    have hn : n = 0 := by simpa using h
    subst hn
    simp [fpowAux]
  | succ fuel ih =>
    intro x n h
    rw [fpowAux]
    by_cases h0 : n = 0
    · subst h0; simp
    · rw [if_neg h0]
      have h2 : 2 ^ (fuel + 1) = 2 * 2 ^ fuel := by rw [pow_succ]; ring
      have hdiv : n / 2 < 2 ^ fuel := by omega
      have hrec := ih (x * x) (n / 2) hdiv
      have hxx : (x * x) ^ (n / 2) = x ^ (2 * (n / 2)) := by
        rw [← sq, ← pow_mul]
      by_cases hodd : n % 2 = 1
      · rw [if_pos hodd, hrec, hxx, ← pow_succ']
        congr 1
        omega
      · rw [if_neg hodd, hrec, hxx]
        congr 1
        omega

theorem fpow_eq_pow {M : Type} [Monoid M] (x : M) (n : Nat) : fpow x n = x ^ n :=
  fpowAux_eq_pow (n + 1) x n
    (lt_of_lt_of_le (Nat.lt_two_pow n) (Nat.pow_le_pow_right (by norm_num) (Nat.le_succ n)))

theorem powerList_length {F : Type} [Monoid F] (g : F) :
    ∀ (n : Nat) (c : F), (powerList g c n).length = n := by
  intro n
  induction n with
  | zero => intro c; rfl
  | succ n ih => intro c; simp [powerList, ih]

theorem powerList_getD {F : Type} [CommRing F] (g : F) :
    ∀ (n : Nat) (c : F) (i : Nat), i < n → (powerList g c n).getD i 0 = c * g ^ i := by
  intro n
  induction n with
  | zero => intro c i h; omega
  | succ n ih =>
    intro c i h
    cases i with
    | zero => simp [powerList]
    | succ i =>
      have hrec := ih (c * g) i (by omega)
      simp only [powerList, List.getD_cons_succ, hrec]
      ring

theorem map_getD_lt {F : Type} [CommRing F] (f : F → F) :
    ∀ (l : List F) (i : Nat), i < l.length → (l.map f).getD i 0 = f (l.getD i 0) := by
  intro l
  induction l with
  | nil => intro i h; simp at h
  | cons a l ih =>
    intro i h
    cases i with
    | zero => simp
    | succ i =>
      simp only [List.map_cons, List.getD_cons_succ]
      exact ih i (by simpa using h)

theorem range_map_getD {F : Type} [CommRing F] (f : Nat → F) (n i : Nat) (h : i < n) :
    ((List.range n).map f).getD i 0 = f i := by
  rw [List.getD_eq_getElem?_getD, List.getElem?_map, List.getElem?_range h]
  rfl

theorem foldl_range_add {F : Type} [CommRing F] (f : Nat → F) :
    ∀ (n : Nat) (a : F), (List.range n).foldl (fun acc i => acc + f i) a =
      a + ∑ i ∈ Finset.range n, f i := by
  intro n
  induction n with
  | zero => intro a; simp
  | succ n ih =>
    intro a
    rw [List.range_succ, List.foldl_append, ih, Finset.sum_range_succ]
    simp [add_assoc]

theorem findRootIndexAux_eq_neg_one {F : Type} [CommRing F] [DecidableEq F]
    (d : Domain F) (point : F) :
    ∀ (rem i : Nat), (∀ j, j < rem → point ≠ d.Roots.getD (i + j) 0) →
      findRootIndexAux d point i rem = -1 := by
  intro rem
  induction rem with
  | zero => intro i _; rfl
  | succ rem ih =>
    intro i h
    rw [findRootIndexAux]
    rw [if_neg (by simpa using h 0 (by omega))]
    refine ih (i + 1) ?_
    intro j hj
    have hne := h (j + 1) (by omega)
    simpa [show i + (j + 1) = i + 1 + j by omega] using hne

theorem findRootIndexAux_first {F : Type} [CommRing F] [DecidableEq F]
    (d : Domain F) (point : F) :
    ∀ (rem i k : Nat), k < rem → point = d.Roots.getD (i + k) 0 →
      (∀ j, j < k → point ≠ d.Roots.getD (i + j) 0) →
      findRootIndexAux d point i rem = Int.ofNat (i + k) := by
  intro rem
  induction rem with
  | zero => intro i k h; omega
  | succ rem ih =>
    intro i k hk hp hmin
    rw [findRootIndexAux]
    cases k with
    | zero =>
      rw [if_pos (by simpa using hp)]
      simp
    | succ k =>
      rw [if_neg (by simpa using hmin 0 (by omega))]
      have hrec := ih (i + 1) k (by omega)
        (by simpa [show i + (k + 1) = i + 1 + k by omega] using hp)
        (fun j hj => by
          have hne := hmin (j + 1) (by omega)
          simpa [show i + (j + 1) = i + 1 + j by omega] using hne)
      rw [hrec]
      congr 1
      omega

theorem nextPow2ExpAux_le_or_exhaust (m : Nat) :
    ∀ (fuel k : Nat), m ≤ 2 ^ nextPow2ExpAux m k fuel ∨ nextPow2ExpAux m k fuel = k + fuel := by
  intro fuel
  induction fuel with
  | zero => intro k; right; rfl
  | succ fuel ih =>
    intro k
    rw [nextPow2ExpAux]
    by_cases h : m ≤ 2 ^ k
    · rw [if_pos h]; left; exact h
    · rw [if_neg h]
      rcases ih (k + 1) with h1 | h1
      · left; exact h1
      · right; rw [h1]; omega

theorem nextPow2ExpAux_le (m : Nat) :
    ∀ (fuel k j : Nat), k ≤ j → m ≤ 2 ^ j → nextPow2ExpAux m k fuel ≤ j := by
  intro fuel
  induction fuel with
  | zero => intro k j hk _; exact hk
  | succ fuel ih =>
    intro k j hkj hm
    rw [nextPow2ExpAux]
    by_cases h : m ≤ 2 ^ k
    · rw [if_pos h]; exact hkj
    · rw [if_neg h]
      refine ih (k + 1) j ?_ hm
      by_contra hlt
      push_neg at hlt
      exact h (le_trans hm (Nat.pow_le_pow_right (by norm_num) (by omega)))

theorem PairingModel.e_zero_left {F G1 G2 GT : Type} [CommRing F] [AddCommGroup G1]
    [Module F G1] [CommGroup GT] (P : PairingModel F G1 G2 GT) (c : G2) :
    P.e 0 c = 1 := by
  have h := P.e_add_left 0 0 c
  rw [add_zero] at h
  have h2 : P.e 0 c * P.e 0 c = P.e 0 c * 1 := by rw [mul_one, ← h]
  exact mul_left_cancel h2

theorem PairingModel.e_neg_left {F G1 G2 GT : Type} [CommRing F] [AddCommGroup G1]
    [Module F G1] [CommGroup GT] (P : PairingModel F G1 G2 GT) (a : G1) (c : G2) :
    P.e (-a) c = (P.e a c)⁻¹ := by
  have h := P.e_add_left a (-a) c
  rw [add_neg_cancel, P.e_zero_left] at h
  exact eq_inv_of_mul_eq_one_right h.symm

theorem findRootIndex_eq_neg_one {F : Type} [CommRing F] [DecidableEq F]
    (d : Domain F) (point : F)
    (h : ∀ i, i < d.Cardinality → point ≠ d.Roots.getD i 0) :
    findRootIndex d point = -1 :=
  findRootIndexAux_eq_neg_one d point d.Cardinality 0
    (fun j hj => by simpa using h j hj)

theorem findRootIndex_eq_of_first {F : Type} [CommRing F] [DecidableEq F]
    (d : Domain F) (point : F) (i : Nat) (hi : i < d.Cardinality)
    (hp : point = d.Roots.getD i 0)
    (hmin : ∀ j, j < i → point ≠ d.Roots.getD j 0) :
    findRootIndex d point = Int.ofNat i := by
  have h := findRootIndexAux_first d point d.Cardinality 0 i hi
    (by simpa using hp) (fun j hj => by simpa using hmin j hj)
  simpa using h

/-! ### The claims -/

/-- C9: `evaluateLagrangePolynomial` (and its public wrapper) returns the
`ErrDomainSizeMismatch` error if and only if the length of the supplied
polynomial differs from the domain cardinality, and in that case the whole
output is `(nil, -1, error)`: no partial result is produced. -/
theorem c9_domain_size_mismatch {F : Type} [CommRing F] [DecidableEq F]
    (inv : F → F) (d : Domain F) (poly : List F) (pt : F)
    (hWF : d.Roots.length = d.Cardinality) :
    ((evaluateLagrangePolynomial inv d poly pt).2.2 = some KzgError.ErrDomainSizeMismatch
      ↔ poly.length ≠ d.Cardinality)
    ∧ (poly.length ≠ d.Cardinality →
        evaluateLagrangePolynomial inv d poly pt =
          (none, -1, some KzgError.ErrDomainSizeMismatch))
    ∧ EvaluateLagrangePolynomial inv d poly pt =
        ((evaluateLagrangePolynomial inv d poly pt).1,
         (evaluateLagrangePolynomial inv d poly pt).2.2) := by
  refine ⟨?_, ?_, rfl⟩
  · simp only [evaluateLagrangePolynomial]
    split_ifs with h1 h2
    · simp
      omega
    · simp
      omega
    · simp
      omega
  · intro h
    simp only [evaluateLagrangePolynomial]
    rw [if_pos (by omega)]

/-- C10: the public `EvaluateLagrangePolynomial` returns a non-nil result
exactly when it returns a nil error, and a nil result exactly when it
returns a non-nil error. -/
theorem c10_result_xor_error {F : Type} [CommRing F] [DecidableEq F]
    (inv : F → F) (d : Domain F) (poly : List F) (pt : F)
    (hWF : d.Roots.length = d.Cardinality) :
    ((EvaluateLagrangePolynomial inv d poly pt).1.isSome
      ↔ (EvaluateLagrangePolynomial inv d poly pt).2 = none)
    ∧ ((EvaluateLagrangePolynomial inv d poly pt).1 = none
      ↔ (EvaluateLagrangePolynomial inv d poly pt).2 ≠ none) := by
  simp only [EvaluateLagrangePolynomial, evaluateLagrangePolynomial]
  split_ifs with h1 h2 <;> simp

/-- C3: evaluating at a domain root returns the stored evaluation entry at
the first index whose root equals the evaluation point, together with that
index and no error. -/
theorem c3_eval_at_root {F : Type} [CommRing F] [DecidableEq F]
    (inv : F → F) (d : Domain F) (poly : List F) (i : Nat)
    (hWF : d.Roots.length = d.Cardinality)
    (hlen : poly.length = d.Cardinality)
    (hi : i < d.Cardinality)
    (hfirst : ∀ j, j < i → d.Roots.getD j 0 ≠ d.Roots.getD i 0) :
    evaluateLagrangePolynomial inv d poly (d.Roots.getD i 0) =
      (some (poly.getD i 0), Int.ofNat i, none) := by
  have hidx : findRootIndex d (d.Roots.getD i 0) = Int.ofNat i :=
    findRootIndex_eq_of_first d _ i hi rfl (fun j hj => Ne.symm (hfirst j hj))
  simp only [evaluateLagrangePolynomial, hidx]
  rw [if_neg (by omega)]
  rw [if_pos (by rw [Int.ofNat_eq_natCast]; omega)]
  simp

/-- C1: when the evaluation point avoids every domain root, the returned
value is exactly the barycentric formula
`((point^cardinality - 1) * cardinalityInverse) *
Σ_i polynomial[i] * roots[i] * (point - roots[i])⁻¹`, with in-domain index
`-1` and no error. -/
theorem c1_barycentric_formula {F : Type} [Field F] [DecidableEq F]
    (inv : F → F) (d : Domain F) (poly : List F) (pt : F)
    (hinv : ∀ x : F, x ≠ 0 → x * inv x = 1)
    (hWF : d.Roots.length = d.Cardinality)
    (hlen : poly.length = d.Cardinality)
    (hpt : ∀ i, i < d.Cardinality → pt ≠ d.Roots.getD i 0) :
    evaluateLagrangePolynomial inv d poly pt =
      (some (((pt ^ d.Cardinality - 1) * d.CardinalityInv) *
        ∑ i ∈ Finset.range d.Cardinality,
          poly.getD i 0 * d.Roots.getD i 0 * (pt - d.Roots.getD i 0)⁻¹),
       -1, none) := by
  have hidx : findRootIndex d pt = -1 := findRootIndex_eq_neg_one d pt hpt
  simp only [evaluateLagrangePolynomial, hidx, batchInvert, List.map_map]
  rw [if_neg (by omega)]
  rw [if_neg (by simp)]
  rw [foldl_range_add, zero_add, fpow_eq_pow]
  have hsum : ∑ i ∈ Finset.range d.Cardinality,
      poly.getD i 0 * d.Roots.getD i 0 *
        (List.map (inv ∘ fun j => pt - d.Roots.getD j 0) (List.range d.Cardinality)).getD i 0
      = ∑ i ∈ Finset.range d.Cardinality,
          poly.getD i 0 * d.Roots.getD i 0 * (pt - d.Roots.getD i 0)⁻¹ := by
    refine Finset.sum_congr rfl ?_
    intro i hmem
    have hilt : i < d.Cardinality := Finset.mem_range.mp hmem
    rw [range_map_getD _ _ _ hilt]
    have hne : pt - d.Roots.getD i 0 ≠ 0 := sub_ne_zero.mpr (hpt i hilt)
    have hiv : inv (pt - d.Roots.getD i 0) = (pt - d.Roots.getD i 0)⁻¹ :=
      eq_inv_of_mul_eq_one_right (hinv _ hne)
    simp only [Function.comp_apply, hiv]
  rw [hsum]

/-- Witness for C9 at a concrete mismatched input. -/
theorem c9_domain_size_mismatch_witness :
    dTwo.Roots.length = dTwo.Cardinality ∧
    (((evaluateLagrangePolynomial inv13 dTwo [3] 2).2.2 = some KzgError.ErrDomainSizeMismatch
        ↔ ([3] : List (ZMod 13)).length ≠ dTwo.Cardinality)
      ∧ (([3] : List (ZMod 13)).length ≠ dTwo.Cardinality →
          evaluateLagrangePolynomial inv13 dTwo [3] 2 =
            (none, -1, some KzgError.ErrDomainSizeMismatch))
      ∧ EvaluateLagrangePolynomial inv13 dTwo [3] 2 =
          ((evaluateLagrangePolynomial inv13 dTwo [3] 2).1,
           (evaluateLagrangePolynomial inv13 dTwo [3] 2).2.2)) :=
  ⟨by decide, c9_domain_size_mismatch inv13 dTwo [3] 2 (by decide)⟩

/-- Witness for C10 at a concrete input. -/
theorem c10_result_xor_error_witness :
    dTwo.Roots.length = dTwo.Cardinality ∧
    (((EvaluateLagrangePolynomial inv13 dTwo [3, 5] 2).1.isSome
        ↔ (EvaluateLagrangePolynomial inv13 dTwo [3, 5] 2).2 = none)
      ∧ ((EvaluateLagrangePolynomial inv13 dTwo [3, 5] 2).1 = none
        ↔ (EvaluateLagrangePolynomial inv13 dTwo [3, 5] 2).2 ≠ none)) :=
  ⟨by decide, c10_result_xor_error inv13 dTwo [3, 5] 2 (by decide)⟩

/-- Witness for C3 at a concrete in-domain input. -/
theorem c3_eval_at_root_witness :
    (dTwo.Roots.length = dTwo.Cardinality ∧
      ([3, 5] : List (ZMod 13)).length = dTwo.Cardinality ∧
      1 < dTwo.Cardinality ∧
      ∀ j, j < 1 → dTwo.Roots.getD j 0 ≠ dTwo.Roots.getD 1 0) ∧
    evaluateLagrangePolynomial inv13 dTwo [3, 5] (dTwo.Roots.getD 1 0) =
      (some (([3, 5] : List (ZMod 13)).getD 1 0), Int.ofNat 1, none) :=
  ⟨⟨by decide, by decide, by decide, by decide⟩,
   c3_eval_at_root inv13 dTwo [3, 5] 1 (by decide) (by decide) (by decide) (by decide)⟩

/-- Witness for C1 at a concrete off-domain input. -/
theorem c1_barycentric_formula_witness :
    ((∀ x : ZMod 13, x ≠ 0 → x * inv13 x = 1) ∧
      dTwo.Roots.length = dTwo.Cardinality ∧
      ([3, 5] : List (ZMod 13)).length = dTwo.Cardinality ∧
      ∀ i, i < dTwo.Cardinality → (2 : ZMod 13) ≠ dTwo.Roots.getD i 0) ∧
    evaluateLagrangePolynomial inv13 dTwo [3, 5] 2 =
      (some ((((2 : ZMod 13) ^ dTwo.Cardinality - 1) * dTwo.CardinalityInv) *
        ∑ i ∈ Finset.range dTwo.Cardinality,
          ([3, 5] : List (ZMod 13)).getD i 0 * dTwo.Roots.getD i 0 *
            ((2 : ZMod 13) - dTwo.Roots.getD i 0)⁻¹),
       -1, none) :=
  ⟨⟨by decide, by decide, by decide, by decide⟩,
   c1_barycentric_formula inv13 dTwo [3, 5] 2 (by decide) (by decide) (by decide) (by decide)⟩

/-- C5: batch verification of the empty batch returns success, and batch
verification of a singleton batch returns exactly the result of calling
`Verify` on that pair with the same opening key (in particular it consumes
no randomness). -/
theorem c5_batch_base_cases {F G1 G2 GT : Type} [CommRing F] [AddCommGroup G1]
    [Module F G1] [CommGroup GT] (P : PairingModel F G1 G2 GT)
    (rand : Except Unit F) (openKey : OpeningKey G1 G2)
    (c : G1) (pf : OpeningProof F G1) :
    BatchVerifyMultiPoints P rand ([] : List G1) [] openKey = none
    ∧ BatchVerifyMultiPoints P rand [c] [pf] openKey = Verify P c pf openKey :=
  ⟨rfl, rfl⟩

/-- C4: when the pairing library itself reports no failure (`Except.ok b`),
`Verify` returns `ErrVerifyOpeningProof` iff the pairing product
`e(C - [y]G1 + z*Q, G2) * e(-Q, [alpha]G2)` is not the identity, returns
success iff it is the identity, and `ErrVerifyOpeningProof` is distinct from
every structural/malformed-input error value. -/
theorem c4_verify_pairing_outcome {F G1 G2 GT : Type} [CommRing F] [AddCommGroup G1]
    [Module F G1] [CommGroup GT] (P : PairingModel F G1 G2 GT)
    (commitment : G1) (proof : OpeningProof F G1) (openKey : OpeningKey G1 G2) (b : Bool)
    (hpc : P.pairingCheck
      [(proof.ClaimedValue • openKey.GenG1 +
          (-proof.InputPoint) • proof.QuotientCommitment - commitment, openKey.GenG2),
       (proof.QuotientCommitment, openKey.AlphaG2)] = Except.ok b) :
    (Verify P commitment proof openKey = some KzgError.ErrVerifyOpeningProof ↔
      P.e (commitment - proof.ClaimedValue • openKey.GenG1 +
          proof.InputPoint • proof.QuotientCommitment) openKey.GenG2 *
        P.e (-proof.QuotientCommitment) openKey.AlphaG2 ≠ 1)
    ∧ (Verify P commitment proof openKey = none ↔
      P.e (commitment - proof.ClaimedValue • openKey.GenG1 +
          proof.InputPoint • proof.QuotientCommitment) openKey.GenG2 *
        P.e (-proof.QuotientCommitment) openKey.AlphaG2 = 1)
    ∧ KzgError.ErrVerifyOpeningProof ≠ KzgError.ErrDomainSizeMismatch
    ∧ KzgError.ErrVerifyOpeningProof ≠ KzgError.ErrInvalidNumDigests
    ∧ KzgError.ErrVerifyOpeningProof ≠ KzgError.ErrRandomSource
    ∧ KzgError.ErrVerifyOpeningProof ≠ KzgError.ErrPairing := by
  have hA : proof.ClaimedValue • openKey.GenG1 +
      (-proof.InputPoint) • proof.QuotientCommitment - commitment =
      -(commitment - proof.ClaimedValue • openKey.GenG1 +
        proof.InputPoint • proof.QuotientCommitment) := by
    rw [neg_smul]
    abel
  have hok := P.pairingCheck_ok _ b hpc
  have hprod : (([(proof.ClaimedValue • openKey.GenG1 +
        (-proof.InputPoint) • proof.QuotientCommitment - commitment, openKey.GenG2),
       (proof.QuotientCommitment, openKey.AlphaG2)]).map fun pq => P.e pq.1 pq.2).prod =
      (P.e (commitment - proof.ClaimedValue • openKey.GenG1 +
          proof.InputPoint • proof.QuotientCommitment) openKey.GenG2)⁻¹ *
        P.e proof.QuotientCommitment openKey.AlphaG2 := by
    simp only [List.map_cons, List.map_nil, List.prod_cons, List.prod_nil, mul_one]
    rw [hA, P.e_neg_left]
  have hclaim : P.e (commitment - proof.ClaimedValue • openKey.GenG1 +
        proof.InputPoint • proof.QuotientCommitment) openKey.GenG2 *
      P.e (-proof.QuotientCommitment) openKey.AlphaG2 =
      ((([(proof.ClaimedValue • openKey.GenG1 +
          (-proof.InputPoint) • proof.QuotientCommitment - commitment, openKey.GenG2),
        (proof.QuotientCommitment, openKey.AlphaG2)]).map fun pq => P.e pq.1 pq.2).prod)⁻¹ := by
    rw [hprod, P.e_neg_left, mul_inv, inv_inv, mul_comm]
  refine ⟨?_, ?_, by simp, by simp, by simp, by simp⟩
  · rw [Verify]
    rw [hpc]
    cases b with
    | true =>
      have h1 := hok.mp rfl
      simp only []
      constructor
      · intro h; cases h
      · intro h
        exfalso
        apply h
        rw [hclaim, h1, inv_one]
    | false =>
      simp only []
      constructor
      · intro _
        rw [hclaim]
        intro h1
        exact Bool.false_ne_true (hok.mpr (inv_eq_one.mp h1))
      · intro _; trivial
  · rw [Verify]
    rw [hpc]
    cases b with
    | true =>
      have h1 := hok.mp rfl
      simp only []
      constructor
      · intro _
        rw [hclaim, h1, inv_one]
      · intro _; trivial
    | false =>
      simp only []
      constructor
      · intro h; cases h
      · intro h1
        exfalso
        rw [hclaim] at h1
        exact Bool.false_ne_true (hok.mpr (inv_eq_one.mp h1))

/-- Witness for C4 at a concrete toy instance (a valid all-zero opening). -/
theorem c4_verify_pairing_outcome_witness :
    toyPairing.pairingCheck
      [(zeroProof.ClaimedValue • toyKey.GenG1 +
          (-zeroProof.InputPoint) • zeroProof.QuotientCommitment - 0, toyKey.GenG2),
       (zeroProof.QuotientCommitment, toyKey.AlphaG2)] = Except.ok true ∧
    ((Verify toyPairing 0 zeroProof toyKey = some KzgError.ErrVerifyOpeningProof ↔
      toyPairing.e (0 - zeroProof.ClaimedValue • toyKey.GenG1 +
          zeroProof.InputPoint • zeroProof.QuotientCommitment) toyKey.GenG2 *
        toyPairing.e (-zeroProof.QuotientCommitment) toyKey.AlphaG2 ≠ 1)
    ∧ (Verify toyPairing 0 zeroProof toyKey = none ↔
      toyPairing.e (0 - zeroProof.ClaimedValue • toyKey.GenG1 +
          zeroProof.InputPoint • zeroProof.QuotientCommitment) toyKey.GenG2 *
        toyPairing.e (-zeroProof.QuotientCommitment) toyKey.AlphaG2 = 1)
    ∧ KzgError.ErrVerifyOpeningProof ≠ KzgError.ErrDomainSizeMismatch
    ∧ KzgError.ErrVerifyOpeningProof ≠ KzgError.ErrInvalidNumDigests
    ∧ KzgError.ErrVerifyOpeningProof ≠ KzgError.ErrRandomSource
    ∧ KzgError.ErrVerifyOpeningProof ≠ KzgError.ErrPairing) :=
  ⟨rfl, c4_verify_pairing_outcome toyPairing 0 zeroProof toyKey true rfl⟩

/-- Counterexample to C6 as stated: for the constructed domain
`NewDomain(1)` the roots sequence has exactly `cardinality` entries, so
there is no entry at index `cardinality` at all. -/
theorem c6_counterexample_no_wraparound_entry :
    NewDomain inv13 (1 : ZMod 13) 1 = some d13
    ∧ d13.Roots.length = d13.Cardinality
    ∧ d13.Roots[d13.Cardinality]? = none :=
  ⟨rfl, by decide, by decide⟩

/-- C6 amended: the stored roots sequence has exactly `cardinality` entries
(no wrap-around entry is stored); `roots[0] = 1`, and the sequence is
cyclic in the sense that extending the generating loop by one more step
would place `generator ^ cardinality = 1 = roots[0]` at index
`cardinality`. -/
theorem c6_amended_cyclic_roots {F : Type} [CommRing F] (inv : F → F) (w : F)
    (m : Nat) (d : Domain F)
    (hw : fpow w (2 ^ 32) = 1)
    (hd : NewDomain inv w m = some d) :
    d.Roots.length = d.Cardinality
    ∧ d.Roots.getD 0 0 = 1
    ∧ (powerList d.Generator 1 (d.Cardinality + 1)).getD d.Cardinality 0 =
        d.Roots.getD 0 0 := by
  rw [NewDomain] at hd
  by_cases h32 : 32 < nextPow2Exp m
  · rw [if_pos h32] at hd; cases hd
  · rw [if_neg h32] at hd
    have hd' : mkDomain inv w (nextPow2Exp m) = d := by injection hd
    subst hd'
    have hkle : nextPow2Exp m ≤ 32 := by omega
    have hcardpos : 0 < 2 ^ nextPow2Exp m := pow_pos (by norm_num) _
    have hg1 : fpow w (2 ^ (32 - nextPow2Exp m)) ^ 2 ^ nextPow2Exp m = 1 := by
      rw [fpow_eq_pow, ← pow_mul, ← pow_add, Nat.sub_add_cancel hkle, ← fpow_eq_pow, hw]
    simp only [mkDomain]
    refine ⟨powerList_length _ _ _, ?_, ?_⟩
    · rw [powerList_getD _ _ _ 0 hcardpos]
      simp
    · rw [powerList_getD _ _ _ _ (Nat.lt_succ_self _),
        powerList_getD _ _ _ 0 hcardpos]
      simp [hg1]

/-- Witness for the amended C6 at a concrete constructed domain. -/
theorem c6_amended_cyclic_roots_witness :
    (fpow (1 : ZMod 13) (2 ^ 32) = 1 ∧ NewDomain inv13 (1 : ZMod 13) 1 = some d13) ∧
    (d13.Roots.length = d13.Cardinality
      ∧ d13.Roots.getD 0 0 = 1
      ∧ (powerList d13.Generator 1 (d13.Cardinality + 1)).getD d13.Cardinality 0 =
          d13.Roots.getD 0 0) :=
  ⟨⟨by decide, rfl⟩, c6_amended_cyclic_roots inv13 1 1 d13 (by decide) rfl⟩

/-- C7: every domain accepted by construction satisfies `roots[0] = 1`,
`roots[i] ^ cardinality = 1` and `roots[i] * precomputedInverses[i] = 1`
for all indices, with the cardinality the least power of two that is `≥ m`
(`1` for `m = 0`).  The hypotheses record the two facts supplied by the
environment of `NewDomain`: the fixed `rootOfUnity` constant satisfies
`w ^ (2^32) = 1` in the scalar field, and the library `Inverse` inverts
every nonzero element. -/
theorem c7_domain_invariants {F : Type} [Field F] (inv : F → F) (w : F) (m : Nat)
    (d : Domain F)
    (hinv : ∀ x : F, x ≠ 0 → x * inv x = 1)
    (hw : fpow w (2 ^ 32) = 1)
    (hd : NewDomain inv w m = some d) :
    d.Roots.getD 0 0 = 1
    ∧ (∀ i, i < d.Cardinality → d.Roots.getD i 0 ^ d.Cardinality = 1)
    ∧ (∀ i, i < d.Cardinality → d.Roots.getD i 0 * d.PreComputedInverses.getD i 0 = 1)
    ∧ (m = 0 → d.Cardinality = 1)
    ∧ (∃ k, d.Cardinality = 2 ^ k ∧ m ≤ d.Cardinality ∧
        ∀ j, m ≤ 2 ^ j → d.Cardinality ≤ 2 ^ j) := by
  rw [NewDomain] at hd
  by_cases h32 : 32 < nextPow2Exp m
  · rw [if_pos h32] at hd; cases hd
  · rw [if_neg h32] at hd
    have hd' : mkDomain inv w (nextPow2Exp m) = d := by injection hd
    subst hd'
    have hkle : nextPow2Exp m ≤ 32 := by omega
    have hcardpos : 0 < 2 ^ nextPow2Exp m := pow_pos (by norm_num) _
    have hg1 : fpow w (2 ^ (32 - nextPow2Exp m)) ^ 2 ^ nextPow2Exp m = 1 := by
      rw [fpow_eq_pow, ← pow_mul, ← pow_add, Nat.sub_add_cancel hkle, ← fpow_eq_pow, hw]
    have hgne : fpow w (2 ^ (32 - nextPow2Exp m)) ≠ 0 := by
      intro h0
      rw [h0, zero_pow (Nat.pos_iff_ne_zero.mp hcardpos)] at hg1
      exact zero_ne_one hg1
    simp only [mkDomain]
    refine ⟨?_, ?_, ?_, ?_, ?_⟩
    · rw [powerList_getD _ _ _ 0 hcardpos]
      simp
    · intro i hi
      rw [powerList_getD _ _ _ i hi, one_mul, ← pow_mul, mul_comm, pow_mul, hg1,
        one_pow]
    · intro i hi
      have hlen : i < (powerList (fpow w (2 ^ (32 - nextPow2Exp m))) 1
          (2 ^ nextPow2Exp m)).length := by
        rw [powerList_length]; exact hi
      rw [map_getD_lt _ _ _ hlen, powerList_getD _ _ _ i hi, one_mul]
      exact hinv _ (pow_ne_zero i hgne)
    · intro hm
      subst hm
      rfl
    · refine ⟨nextPow2Exp m, rfl, ?_, ?_⟩
      · rcases nextPow2ExpAux_le_or_exhaust m 64 0 with h | h
        · exact h
        · rw [nextPow2Exp] at hkle
          omega
      · intro j hj
        exact Nat.pow_le_pow_right (by norm_num)
          (nextPow2ExpAux_le m 64 0 j (Nat.zero_le j) hj)

/-- Witness for C7 at a concrete accepted size parameter. -/
theorem c7_domain_invariants_witness :
    ((∀ x : ZMod 13, x ≠ 0 → x * inv13 x = 1)
      ∧ fpow (1 : ZMod 13) (2 ^ 32) = 1
      ∧ NewDomain inv13 (1 : ZMod 13) 4 = some d13four) ∧
    (d13four.Roots.getD 0 0 = 1
      ∧ (∀ i, i < d13four.Cardinality → d13four.Roots.getD i 0 ^ d13four.Cardinality = 1)
      ∧ (∀ i, i < d13four.Cardinality →
          d13four.Roots.getD i 0 * d13four.PreComputedInverses.getD i 0 = 1)
      ∧ ((4 : Nat) = 0 → d13four.Cardinality = 1)
      ∧ (∃ k, d13four.Cardinality = 2 ^ k ∧ 4 ≤ d13four.Cardinality ∧
          ∀ j, 4 ≤ 2 ^ j → d13four.Cardinality ≤ 2 ^ j)) :=
  ⟨⟨by decide, by decide, rfl⟩,
   c7_domain_invariants inv13 1 4 d13four (by decide) (by decide) rfl⟩

/-- Counterexample to C2 as stated: the folding scalar of
`BatchVerifyMultiPoints` is drawn fresh from the randomness source
(`fr.Element.SetRandom`), not derived from the batch contents: on one and
the same batch (same commitments, proofs, opening key), the draw `0` makes
verification succeed while the draw `1` makes it fail, so two runs need not
use the same scalar nor return the same result. -/
theorem c2_counterexample_result_depends_on_draw :
    BatchVerifyMultiPoints toyPairing (Except.ok 0) toyCommitments toyProofs toyKey = none
    ∧ BatchVerifyMultiPoints toyPairing (Except.ok 1) toyCommitments toyProofs toyKey =
        some KzgError.ErrVerifyOpeningProof :=
  ⟨rfl, rfl⟩

/-- C2 amended: for batches of size at least 2 the folding scalar is the
scalar freshly drawn from the secure randomness source during the call —
an input independent of the batch contents, never supplied by the caller —
and the verdict is the deterministic function `batchVerifyWithScalar` of
the batch contents together with that drawn scalar; a failure of the
randomness source is propagated as an error. -/
theorem c2_amended_scalar_from_randomness {F G1 G2 GT : Type} [CommRing F]
    [AddCommGroup G1] [Module F G1] [CommGroup GT]
    (P : PairingModel F G1 G2 GT) (commitments : List G1)
    (proofs : List (OpeningProof F G1)) (openKey : OpeningKey G1 G2)
    (hlen : commitments.length = proofs.length)
    (h2 : 2 ≤ commitments.length) :
    (∀ r : F, BatchVerifyMultiPoints P (Except.ok r) commitments proofs openKey =
      batchVerifyWithScalar P r commitments proofs openKey)
    ∧ BatchVerifyMultiPoints P (Except.error ()) commitments proofs openKey =
        some KzgError.ErrRandomSource := by
  constructor
  · intro r
    rw [BatchVerifyMultiPoints]
    rw [if_neg (by omega), if_neg (by omega), if_neg (by omega)]
    rfl
  · rw [BatchVerifyMultiPoints]
    rw [if_neg (by omega), if_neg (by omega), if_neg (by omega)]

/-- Witness for the amended C2 at a concrete batch of size 2. -/
theorem c2_amended_scalar_from_randomness_witness :
    (toyCommitments.length = toyProofs.length ∧ 2 ≤ toyCommitments.length) ∧
    ((∀ r : ZMod 13,
        BatchVerifyMultiPoints toyPairing (Except.ok r) toyCommitments toyProofs toyKey =
          batchVerifyWithScalar toyPairing r toyCommitments toyProofs toyKey)
      ∧ BatchVerifyMultiPoints toyPairing (Except.error ()) toyCommitments toyProofs toyKey =
          some KzgError.ErrRandomSource) :=
  ⟨⟨by decide, by decide⟩,
   c2_amended_scalar_from_randomness toyPairing toyCommitments toyProofs toyKey
     (by decide) (by decide)⟩

/-- C8: for the polynomial `f(x) = x^2 + x` sampled in evaluation form on
the domain built by `NewDomain(3)` (cardinality 4), evaluating at any point
`z` outside the domain by the barycentric branch returns the direct
monomial value `z^2 + z`.  The hypotheses record what the environment
supplies: the constructed generator squares to `-1` (it has order 4 because
the fixed `rootOfUnity` has order `2^32`), the stored `CardinalityInv`
inverts 4, and the library `Inverse` inverts the nonzero denominators. -/
theorem c8_quadratic_roundtrip {F : Type} [CommRing F] [DecidableEq F]
    (inv : F → F) (w : F) (d : Domain F) (poly : List F) (z : F)
    (hd : NewDomain inv w 3 = some d)
    (hg2 : d.Generator ^ 2 = -1)
    (hc4 : (4 : F) * d.CardinalityInv = 1)
    (hpoly : poly = d.Roots.map (fun r => r ^ 2 + r))
    (hz : ∀ i, i < d.Cardinality → z ≠ d.Roots.getD i 0)
    (hzi : ∀ i, i < d.Cardinality →
      (z - d.Roots.getD i 0) * inv (z - d.Roots.getD i 0) = 1) :
    evaluateLagrangePolynomial inv d poly z = (some (z ^ 2 + z), -1, none) := by
  have hidx : findRootIndex d z = -1 := findRootIndex_eq_neg_one d z hz
  rw [NewDomain] at hd
  rw [if_neg (by decide)] at hd
  have hd' : mkDomain inv w (nextPow2Exp 3) = d := by injection hd
  have hexp3 : nextPow2Exp 3 = 2 := rfl
  rw [hexp3] at hd'
  subst hd'
  have hlen : poly.length = (mkDomain inv w 2).Cardinality := by rw [hpoly]; rfl
  simp only [evaluateLagrangePolynomial, hidx, batchInvert, List.map_map]
  rw [if_neg (by omega)]
  rw [if_neg (by simp)]
  rw [hpoly]
  show (some ((fpow z 4 - 1) * inv ((4 : Nat) : F) *
      ((((0 + ((1 : F) ^ 2 + 1) * 1 * inv (z - 1))
        + ((1 * fpow w (2 ^ 30)) ^ 2 + 1 * fpow w (2 ^ 30)) * (1 * fpow w (2 ^ 30)) *
            inv (z - 1 * fpow w (2 ^ 30)))
        + ((1 * fpow w (2 ^ 30) * fpow w (2 ^ 30)) ^ 2 +
              1 * fpow w (2 ^ 30) * fpow w (2 ^ 30)) *
            (1 * fpow w (2 ^ 30) * fpow w (2 ^ 30)) *
            inv (z - 1 * fpow w (2 ^ 30) * fpow w (2 ^ 30)))
        + ((1 * fpow w (2 ^ 30) * fpow w (2 ^ 30) * fpow w (2 ^ 30)) ^ 2 +
              1 * fpow w (2 ^ 30) * fpow w (2 ^ 30) * fpow w (2 ^ 30)) *
            (1 * fpow w (2 ^ 30) * fpow w (2 ^ 30) * fpow w (2 ^ 30)) *
            inv (z - 1 * fpow w (2 ^ 30) * fpow w (2 ^ 30) * fpow w (2 ^ 30)))),
      -1, none)
    = (some (z ^ 2 + z), (-1 : Int), none)
  have hg2' : fpow w (2 ^ 30) ^ 2 = -1 := hg2
  have hc4' : (4 : F) * inv ((4 : Nat) : F) = 1 := hc4
  have e0 : (z - (1 : F)) * inv (z - (1 : F)) = 1 :=
    hzi 0 (by show (0 : Nat) < 2 ^ 2; norm_num)
  have e1 : (z - 1 * fpow w (2 ^ 30)) * inv (z - 1 * fpow w (2 ^ 30)) = 1 :=
    hzi 1 (by show (1 : Nat) < 2 ^ 2; norm_num)
  have e2 : (z - 1 * fpow w (2 ^ 30) * fpow w (2 ^ 30)) *
      inv (z - 1 * fpow w (2 ^ 30) * fpow w (2 ^ 30)) = 1 :=
    hzi 2 (by show (2 : Nat) < 2 ^ 2; norm_num)
  have e3 : (z - 1 * fpow w (2 ^ 30) * fpow w (2 ^ 30) * fpow w (2 ^ 30)) *
      inv (z - 1 * fpow w (2 ^ 30) * fpow w (2 ^ 30) * fpow w (2 ^ 30)) = 1 :=
    hzi 3 (by show (3 : Nat) < 2 ^ 2; norm_num)
  rw [fpow_eq_pow z 4]
  simp only [Prod.mk.injEq, Option.some.injEq, and_true]
  set g := fpow w (2 ^ 30) with hgdef
  set c := inv ((4 : Nat) : F) with hcdef
  set b0 := inv (z - (1 : F)) with hb0
  set b1 := inv (z - 1 * g) with hb1
  set b2 := inv (z - 1 * g * g) with hb2
  set b3 := inv (z - 1 * g * g * g) with hb3
  linear_combination (2 * c * (z ^ 3 + z ^ 2 + z + 1)) * e0
    + (-(g + 1) * c * (z ^ 3 + g * z ^ 2 - z - g)) * e1
    + ((g - 1) * c * (z ^ 3 - g * z ^ 2 - z + g)) * e3
    + (z ^ 2 + z) * hc4'
    + (z ^ 4 * g ^ 7 * b3 * c - z ^ 4 * g ^ 5 * b3 * c + z ^ 4 * g ^ 4 * b2 * c
      + z ^ 4 * g ^ 4 * b3 * c + z ^ 4 * g ^ 3 * b3 * c - z ^ 4 * g ^ 2 * b3 * c
      + z ^ 4 * g * b1 * c - z ^ 4 * g * b3 * c + z ^ 4 * b1 * c + z ^ 4 * b3 * c
      + z ^ 3 * g ^ 2 * b3 * c - z ^ 3 * g * b3 * c - z ^ 2 * g ^ 3 * b3 * c
      + z ^ 2 * g ^ 2 * b3 * c - z ^ 2 * g * b1 * c + z ^ 2 * g * b3 * c
      - z ^ 2 * b1 * c - z ^ 2 * b3 * c - 2 * z ^ 2 * c - z * g ^ 2 * b3 * c
      + z * g * b3 * c - g ^ 7 * b3 * c + g ^ 5 * b3 * c - g ^ 4 * b2 * c
      - g ^ 4 * b3 * c + 2 * c) * hg2'

/-- Witness for C8 over a prime field with 2-adicity 32 (`bigP`), using the
order-`2^32` element `wP`, the domain `NewDomain(3)` and the off-domain
point `2`. -/
theorem c8_quadratic_roundtrip_witness :
    (NewDomain invP wP 3 = some d8
      ∧ d8.Generator ^ 2 = -1
      ∧ (4 : ZMod bigP) * d8.CardinalityInv = 1
      ∧ poly8 = d8.Roots.map (fun r => r ^ 2 + r)
      ∧ (∀ i, i < d8.Cardinality → (2 : ZMod bigP) ≠ d8.Roots.getD i 0)
      ∧ (∀ i, i < d8.Cardinality →
          ((2 : ZMod bigP) - d8.Roots.getD i 0) * invP ((2 : ZMod bigP) - d8.Roots.getD i 0) = 1)) ∧
    evaluateLagrangePolynomial invP d8 poly8 2 =
      (some ((2 : ZMod bigP) ^ 2 + 2), -1, none) :=
  ⟨⟨rfl, by decide, by decide, rfl, by decide, by decide⟩,
   c8_quadratic_roundtrip invP wP d8 poly8 2 rfl (by decide) (by decide) rfl
     (by decide) (by decide)⟩
